import Mathlib

set_option maxRecDepth 4096

/-!
Shallow embedding of the prompt-templating and completion pipeline of the
repository (mindsdb): `get_completed_prompts`, `ft_chat_format_validation`
and `ft_chat_formatter` from `mindsdb/integrations/libs/llm_utils.py`,
`LangChainHandler.run_agent` from
`mindsdb/integrations/handlers/langchain_handler/langchain_handler.py`, and
`_completion_event_generator` from `mindsdb/api/http/namespaces/agents.py`.
Python strings are `List Char` where character-level scanning matters and
`String` elsewhere; DataFrames are lists of rows; a row is an association
list from column name to an optional cell value (a missing key and a null
cell are both `none`, matching the specification wording null/absent);
exceptions are `Except`; in-place DataFrame mutation is explicit state
passing (the updated frame is returned).
-/

instance {ε α : Type} [DecidableEq ε] [DecidableEq α] : DecidableEq (Except ε α) :=
  fun x y =>
    match x, y with
    | .ok a, .ok b => decidable_of_iff (a = b) (by simp)
    | .error e, .error f => decidable_of_iff (e = f) (by simp)
    | .ok _, .error _ => isFalse (by intro h; cases h)
    | .error _, .ok _ => isFalse (by intro h; cases h)

/-- The ASCII apostrophe, used to transcribe message strings of the source. -/
def apos : Char := Char.ofNat 39

/-- `hasPre pre l`: `l` starts with `pre` (python `str.startswith`). -/
def hasPre : List Char → List Char → Bool
  | [], _ => true
  | _ :: _, [] => false
  | p :: ps, c :: cs => p == c && hasPre ps cs

/-- python `str.removeprefix`: drop `pre` when present, else unchanged. -/
def dropPre (pre l : List Char) : List Char :=
  if hasPre pre l then l.drop pre.length else l

/-- `hasSuf suf l`: `l` ends with `suf` (python `str.endswith`). -/
def hasSuf (suf l : List Char) : Bool :=
  hasPre suf.reverse l.reverse

/-- python `str.removesuffix`: drop `suf` when present, else unchanged. -/
def dropSuf (suf l : List Char) : List Char :=
  if hasSuf suf l then l.take (l.length - suf.length) else l

/-- A non-null cell of a DataFrame: the values the pipeline stringifies. -/
inductive CellVal where
  | vStr (s : String)
  | vInt (n : Int)
deriving DecidableEq, Repr

/-- `str(value)` and pandas `astype("string")` on a cell. -/
def cellToString : CellVal → String
  | .vStr s => s
  | .vInt n => toString n

/-- python truthiness of a cell (`row.get(col)` used as a condition). -/
def cellTruthy : CellVal → Bool
  | .vStr s => s ≠ ""
  | .vInt n => n ≠ 0

/-- A DataFrame row: column name to optional cell (none = null/absent). -/
abbrev Row : Type := List (String × Option CellVal)

/-- Reading a column of a row; a missing key reads as null. -/
def getVal (row : Row) (c : String) : Option CellVal :=
  (List.lookup c row).join

/-- Column assignment `df[col] = value` restricted to one row: overwrite the
key when present, append it otherwise. -/
def setCol (row : Row) (k : String) (v : Option CellVal) : Row :=
  if row.any (fun p => p.1 == k) then
    row.map (fun p => if p.1 == k then (k, v) else p)
  else
    row ++ [(k, v)]

/-- The scan for the closing `}}` of one placeholder: python regex
`{{(.*?)}}` is non-greedy, so the span of one match ends at the first `}}`
after its `{{`. Returns the captured name and the rest of the input. -/
def grabName : List Char → Option (List Char × List Char)
  | [] => none
  | c :: cs =>
    if c = '}' ∧ cs.head? = some '}' then some ([], cs.tail)
    else (grabName cs).map (fun p => (c :: p.1, p.2))

theorem grabName_length : ∀ (l : List Char) {n r}, grabName l = some (n, r) →
    r.length < l.length := by
  intro l
  induction l with
  | nil => intro n r h; simp [grabName] at h
  | cons c cs ih =>
    intro n r h
    rw [grabName] at h
    by_cases hc : c = '}' ∧ cs.head? = some '}'
    · rw [if_pos hc] at h
      simp only [Option.some.injEq, Prod.mk.injEq] at h
      obtain ⟨-, hr⟩ := h
      subst hr
      cases cs with
      | nil => simp at hc
      | cons d ds => simp only [List.tail_cons, List.length_cons]; omega
    · rw [if_neg hc] at h
      cases he : grabName cs with
      | none => rw [he] at h; simp at h
      | some p =>
        rw [he] at h
        simp only [Option.map_some', Option.some.injEq, Prod.mk.injEq] at h
        obtain ⟨-, hr⟩ := h
        subst hr
        exact Nat.lt_succ_of_lt (ih he)

/-- Scanning `re.finditer("{{(.*?)}}", base_template)` left to right and
splitting the template at the match spans, as `get_completed_prompts` does:
the result is the literal text before the first match together with the
list of (placeholder capture, literal text that follows it) pairs. When a
`{{` has no closing `}}` the scan moves on by one character, as the regex
engine does. -/
def parseT : List Char → List Char × List (List Char × List Char)
  | [] => ([], [])
  | c :: cs =>
    if c = '{' ∧ cs.head? = some '{' then
      match h : grabName cs.tail with
      | some nr =>
        let p := parseT nr.2
        ([], (nr.1, p.1) :: p.2)
      | none =>
        let p := parseT cs
        ('{' :: p.1, p.2)
    else
      let p := parseT cs
      (c :: p.1, p.2)
termination_by l => l.length
decreasing_by
  · have h1 := grabName_length _ h
    have h2 : cs.tail.length ≤ cs.length := by cases cs <;> simp
    simp only [List.length_cons]
    omega
  · simp only [List.length_cons]
    omega
  · simp only [List.length_cons]
    omega

/-- `m[0].replace("{", "").replace("}", "")`: the column name of one match
is its text with every brace removed. -/
def colName (n : List Char) : String :=
  String.mk (n.filter (fun c => c ≠ '{' ∧ c ≠ '}'))

/-- One row cell rendered into the prompt: null becomes the empty string
(`replace(to_replace=[None], value='')`), a non-null cell its string form. -/
def cellData (v : Option CellVal) : List Char :=
  match v with
  | none => []
  | some v => (cellToString v).data

/-- The in-fill loop of `get_completed_prompts` after the leading literal:
for each placeholder, append the value of its column and then the literal
that follows it. -/
def fillPairs (row : Row) : List (List Char × List Char) → List Char
  | [] => []
  | (n, l) :: ps => cellData (getVal row (colName n)) ++ l ++ fillPairs row ps

/-- A full prompt of one row: leading literal, then values interleaved with
the remaining literals, exactly the concatenation order of the source loop. -/
def fillRow (row : Row) (lit0 : List Char) (pairs : List (List Char × List Char)) :
    List Char :=
  lit0 ++ fillPairs row pairs

/-- The column the source adds to the callers DataFrame. -/
def mdbPromptCol : String := "__mdb_prompt"

/-- The assertion message of `get_completed_prompts` for a template with no
placeholder. -/
def noPlaceholderMsg : String :=
  "No placeholders found in the prompt, please provide a valid prompt template."

/-- `get_completed_prompts(base_template, df)`: parse the template, fail
when it has no placeholder, flag a row as empty when all its placeholder
columns are simultaneously null, fill every row, and return the updated
DataFrame (the source mutates `df` by writing column `__mdb_prompt`), the
prompt list and the empty row ids. -/
def getCompletedPrompts (baseTemplate : List Char) (df : List Row) :
    Except String (List Row × List (List Char) × List Nat) :=
  let parsed := parseT baseTemplate
  let lit0 := parsed.1
  let pairs := parsed.2
  if pairs = [] then .error noPlaceholderMsg
  else
    let columns := pairs.map (fun p => colName p.1)
    let emptyPromptIds := (List.range df.length).filter
      (fun i => columns.all (fun c => (getVal (df.getD i []) c).isNone))
    let newDf := df.map (fun row =>
      setCol row mdbPromptCol (some (.vStr (String.mk (fillRow row lit0 pairs)))))
    let prompts := df.map (fun row => fillRow row lit0 pairs)
    .ok (newDf, prompts, emptyPromptIds)

/-- The placeholder part of a rendered template: `{{name}}` followed by a
literal, repeated. Together with `render` this is the shape the
specification describes a compiled template to have (ordered literal
segments interleaved with double-brace placeholders). -/
def renderPairs : List (List Char × List Char) → List Char
  | [] => []
  | (n, l) :: ps => '{' :: '{' :: (n ++ '}' :: '}' :: (l ++ renderPairs ps))

/-- A template string written as its leading literal followed by
alternating `{{name}}` placeholders and literals. -/
def render (lit0 : List Char) (ps : List (List Char × List Char)) : List Char :=
  lit0 ++ renderPairs ps

/-- Text with no brace characters: literals and names for which template
rendering and the regex scan invert each other. -/
def braceFree (l : List Char) : Prop := ∀ c ∈ l, c ≠ '{' ∧ c ≠ '}'

instance (l : List Char) : Decidable (braceFree l) := by
  unfold braceFree; infer_instance

/-- Modelled from the spec: the prompt the specification promises for one
row, every literal segment verbatim with each substitution at the exact
original position of its placeholder (literal, value, literal, value, ...,
final literal). -/
def specInterleave : List (List Char) → List (List Char) → List Char
  | [], _ => []
  | l :: _, [] => l
  | l :: ls, v :: vs => l ++ v ++ specInterleave ls vs

/-- A chat message value: a string or a non-string value (for the content
type check of the validator). -/
inductive MVal where
  | mstr (s : String)
  | mnum (n : Int)
deriving DecidableEq, Repr

/-- A chat message as `ft_chat_format_validation` receives it: a python
dictionary, keys to values. -/
abbrev ChatMsg : Type := List (String × MVal)

/-- The exceptions `ft_chat_format_validation` and `ft_chat_formatter`
raise, each constructor one `raise` site with the data its message
carries (the transition failure carries the 1-based message index and the
attempted (from-state, role) pair). -/
inductive ChatErr where
  | badKeys (keys : List String)
  | keyMissing
  | lenMismatch
  | emptyChat
  | noAssistant
  | noUser
  | invalidRole (i : Nat) (role : MVal)
  | badContent (i : Nat)
  | invalidTransition (i : Nat) (fromState : Option String) (role : String)
  | duplicateMessageIds
deriving DecidableEq, Repr

/-- The default transition table of the finite state machine, keyed by the
current state (`None` before any message). -/
def defaultTransitions (systemKey userKey assistantKey : String) :
    Option String → List String
  | none => [systemKey, userKey]
  | some s =>
    if s = systemKey then [userKey]
    else if s = userKey then [assistantKey]
    else if s = assistantKey then [userKey]
    else []

/-- The `for i, (role, content) in enumerate(...)` walk of the validator:
role legality, content textuality and transition legality are checked in
that order, stopping at the first violation; `i` is the 1-based index the
error message reports. -/
def fsmWalk (validRoles : List String) (trans : Option String → List String) :
    Option String → Nat → List (MVal × MVal) → Except ChatErr Unit
  | _, _, [] => .ok ()
  | state, i, (role, content) :: rest =>
    match role with
    | .mstr r =>
      if ¬ validRoles.contains r then .error (.invalidRole i role)
      else
        match content with
        | .mstr _ =>
          if ¬ (trans state).contains r then .error (.invalidTransition i state r)
          else fsmWalk validRoles trans (some r) (i + 1) rest
        | _ => .error (.badContent i)
    | _ => .error (.invalidRole i role)

/-- `ft_chat_format_validation(chat, transitions, ...)`: structural checks
(recognized keys only, role and content present, non-empty sequence, at
least one assistant and one user message) followed by the finite state
machine walk over the default table when no custom table is given. -/
def ftChatFormatValidation (chat : List ChatMsg)
    (transitions : Option (Option String → List String))
    (systemKey userKey assistantKey roleKey contentKey nameKey : String) :
    Except ChatErr Unit :=
  let validKeys := [roleKey, contentKey, nameKey]
  let validRoles := [systemKey, userKey, assistantKey]
  match chat.find? (fun m => m.any (fun kv => ¬ validKeys.contains kv.1)) with
  | some m => .error (.badKeys (m.map (fun kv => kv.1)))
  | none =>
    match chat.mapM (fun m => List.lookup roleKey m),
        chat.mapM (fun m => List.lookup contentKey m) with
    | some roles, some contents =>
      if roles.length ≠ contents.length then .error .lenMismatch
      else if roles.length = 0 then .error .emptyChat
      else if ¬ roles.contains (.mstr assistantKey) then .error .noAssistant
      else if ¬ roles.contains (.mstr userKey) then .error .noUser
      else
        let trans := transitions.getD
          (defaultTransitions systemKey userKey assistantKey)
        fsmWalk validRoles trans none 1 (roles.zip contents)
    | _, _ => .error .keyMissing

/-- The validator with the default key arguments of the source. -/
def ftChatFormatValidationD (chat : List ChatMsg) : Except ChatErr Unit :=
  ftChatFormatValidation chat none "system" "user" "assistant"
    "role" "content" "name"

/-- One row of the tabular chat DataFrame `ft_chat_formatter` receives;
`chatId` and `msgId` are only read when the corresponding column exists. -/
structure ChatRow where
  chatId : Int
  msgId : Int
  role : String
  content : String
deriving DecidableEq, Repr

/-- The message dictionary `ft_chat_formatter` builds from one row. -/
def rowMsg (r : ChatRow) : ChatMsg :=
  [("role", .mstr r.role), ("content", .mstr r.content)]

/-- Insertion into a list sorted by a boolean comparison, the helper of
`sortRows` (a stable sort, as pandas `kind="stable"` and the distinct sort
keys of the other branches make the source sorts deterministic). -/
def insSorted (le : ChatRow → ChatRow → Bool) (x : ChatRow) :
    List ChatRow → List ChatRow
  | [] => [x]
  | y :: ys => if le x y then x :: y :: ys else y :: insSorted le x ys

/-- A stable insertion sort: an element is placed before the first kept
element strictly greater than it, so equal keys keep their original order. -/
def stableSort (le : ChatRow → ChatRow → Bool) (rows : List ChatRow) :
    List ChatRow :=
  rows.foldr (insSorted le) []

/-- The pre-sort of `ft_chat_formatter`: by `(chat_id, message_id)` when
both columns exist, stably by `chat_id` alone, or by `message_id` alone
after the duplicate check. -/
def sortChatRows (hasChatId hasMsgId : Bool) (rows : List ChatRow) :
    Except ChatErr (List ChatRow) :=
  if hasChatId then
    if hasMsgId then
      .ok (stableSort (fun a b =>
        a.chatId < b.chatId ∨ (a.chatId = b.chatId ∧ a.msgId ≤ b.msgId)) rows)
    else .ok (stableSort (fun a b => a.chatId ≤ b.chatId) rows)
  else if hasMsgId then
    if (rows.map (fun r => r.msgId)).Nodup then
      .ok (stableSort (fun a b => a.msgId ≤ b.msgId) rows)
    else .error .duplicateMessageIds
  else .ok rows

/-- The tabular aggregation loop of `ft_chat_formatter`: a new chat unit
starts whenever a `system` role is seen while the current unit is
non-empty (that unit is validated and flushed first); the final unit is
always validated and flushed at the end of the batch. -/
def buildChats : List ChatRow → List ChatMsg → Except ChatErr (List (List ChatMsg))
  | [], chat => do
    (ftChatFormatValidationD chat).map (fun _ => [chat])
  | row :: rest, chat =>
    if row.role = "system" ∧ chat ≠ [] then do
      let _ ← ftChatFormatValidationD chat
      let restChats ← buildChats rest [rowMsg row]
      return chat :: restChats
    else buildChats rest (chat ++ [rowMsg row])

/-- `ft_chat_formatter(df)` in tabular mode (no `chat_json` column): sort
on the optional id columns, then aggregate into validated chat units. The
`{"messages": ...}` wrapper of the source is dropped: a chat unit is its
message list. -/
def ftChatFormatter (hasChatId hasMsgId : Bool) (rows : List ChatRow) :
    Except ChatErr (List (List ChatMsg)) := do
  let sorted ← sortChatRows hasChatId hasMsgId rows
  buildChats sorted []

/-- The injected invocation capability of `run_agent`: `invoke` returns the
answer dictionary projected to its optional `output` field, or raises; a
dictionary without `output` makes the source fall back to
`agent_executor.run(prompt)`. -/
structure Capability where
  invoke : List Char → Except String (Option String)
  run : List Char → String

/-- The error text marker of a salvageable langchain parsing failure. -/
def parseMarker : String := "Could not parse LLM output: `"

/-- `_invoke_agent_executor_with_prompt`: an empty prompt short-circuits to
the empty answer; an exception whose text starts with the parsing-failure
marker is salvaged once by stripping the marker and the trailing backtick;
any other exception is re-raised. -/
def invokeAgentExecutorWithPrompt (cap : Capability) (prompt : List Char) :
    Except String String :=
  if prompt = [] then .ok ""
  else
    match cap.invoke prompt with
    | .ok answer =>
      match answer with
      | some out => .ok out
      | none => .ok (cap.run prompt)
    | .error e =>
      if ¬ hasPre parseMarker.data e.data then .error e
      else .ok (String.mk (dropSuf ['`'] (dropPre parseMarker.data e.data)))

/-- The sentinel the source appends when `as_completed` times out. -/
def timeoutMessage : String :=
  "I" ++ String.singleton apos ++ "m sorry! I couldn" ++ String.singleton apos ++
    "t come up with a response in time. Please try again."

/-- The collection loop of `run_agent`:
`for future in as_completed(futures, timeout=...)` walks the futures in
completion order (`order` lists task indices by finish time, `times` their
finish times); waiting past the deadline for the next future raises
`TimeoutError`, which the source catches by appending one sentinel and
keeping what was collected; `future.result()` re-raises a task exception,
which nothing catches. -/
def collectLoop (results : List (Except String String)) (times : List Nat)
    (deadline : Nat) : List Nat → List String → Except String (List String)
  | [], acc => .ok acc
  | i :: rest, acc =>
    if deadline < times.getD i 0 then .ok (acc ++ [timeoutMessage])
    else
      match results.getD i (.ok "") with
      | .error e => .error e
      | .ok s => collectLoop results times deadline rest (acc ++ [s])

/-- python `list.insert(i, x)`: insert at position `i`, clamped to the end
of the list. -/
def pyInsert : List (Option String) → Nat → Option String → List (Option String)
  | l, 0, x => x :: l
  | [], _ + 1, x => [x]
  | a :: l, n + 1, x => a :: pyInsert l n x

/-- Insertion into a sorted list of indices, the helper of `sortNat`. -/
def insSortedNat (x : Nat) : List Nat → List Nat
  | [] => [x]
  | y :: ys => if x ≤ y then x :: y :: ys else y :: insSortedNat x ys

/-- python `sorted` on the empty-row ids. -/
def sortNat (l : List Nat) : List Nat := l.foldr insSortedNat []

/-- `LangChainHandler.run_agent` as a function of the DataFrame, the
capability and the schedule of the worker pool (completion order, finish
times, deadline): re-derive the input variables with the placeholder
regex, flag rows whose placeholder columns are all null, build one prompt
per remaining row (an empty-flagged row still contributes its user-column
text when that is truthy), run each prompt through the salvage wrapper,
collect in completion order under the deadline, then reinsert `None` at
every sorted empty-row id except the last (`sorted(empty_prompt_ids)[:-1]`
in the source). -/
def runAgent (baseTemplate : List Char) (userCol : String) (df : List Row)
    (cap : Capability) (order times : List Nat) (deadline : Nat) :
    Except String (List (Option String)) :=
  let parsed := parseT baseTemplate
  let inputVars := parsed.2.map (fun p => colName p.1)
  let emptyPromptIds := (List.range df.length).filter
    (fun i => inputVars.all (fun c => (getVal (df.getD i []) c).isNone))
  let prompts := (df.enum.filterMap (fun ir =>
    if ¬ emptyPromptIds.contains ir.1 then
      some (fillRow ir.2 parsed.1 parsed.2)
    else
      match getVal ir.2 userCol with
      | some v => if cellTruthy v then some (cellToString v).data else none
      | none => none))
  let futures := prompts.map (fun p => invokeAgentExecutorWithPrompt cap p)
  match collectLoop futures times deadline order [] with
  | .error e => .error e
  | .ok completions =>
    let completionsOpt : List (Option String) := completions.map some
    .ok (((sortNat emptyPromptIds).dropLast).foldl
      (fun acc i => pyInsert acc i none) completionsOpt)

/-- An object inside a `messages` chunk entry: python projects it to
`str(m.content)` when the attribute exists, else `str(m)`. -/
inductive MsgLike where
  | hasContent (content : String)
  | noContent (asStr : String)
deriving DecidableEq, Repr

/-- An object inside an `actions` chunk entry, with its optional `tool`,
`tool_input` and `log` attributes and its `str()` form (the `getattr`
default for `tool`). -/
structure ActionLike where
  tool : Option String
  toolInput : Option String
  log : Option String
  asStr : String
deriving DecidableEq, Repr

/-- An object inside a `steps` chunk entry: its optional `observation`
attribute and its `str()` form. -/
structure StepLike where
  observation : Option String
  asStr : String
deriving DecidableEq, Repr

/-- A value of an upstream chunk dictionary. -/
inductive CVal where
  | cs (s : String)
  | cmsgs (ms : List MsgLike)
  | cacts (as' : List ActionLike)
  | csteps (ss : List StepLike)
deriving DecidableEq, Repr

/-- One upstream event of the completion stream: a pre-formatted string, a
dictionary, or any other object (kept as its `str()` form). -/
inductive Chunk where
  | str (s : String)
  | dict (d : List (String × CVal))
  | other (asStr : String)
deriving DecidableEq, Repr

/-- A JSON value of an emitted frame. -/
inductive JOut where
  | js (s : String)
  | jb (b : Bool)
  | jnull
  | jmsgList (contents : List String)
  | jactList (acts : List (String × String × String))
  | jstepList (observations : List String)
deriving DecidableEq, Repr

/-- One emitted frame: a passthrough string (already `data: ...` framed) or
the serialized dictionary of `json_serialize`. -/
inductive Frame where
  | raw (s : String)
  | obj (fields : List (String × JOut))
deriving DecidableEq, Repr

/-- A dictionary value carried into an output frame. -/
def cvalToJOut : CVal → JOut
  | .cs s => .js s
  | .cmsgs ms => .jmsgList (ms.map (fun m =>
      match m with
      | .hasContent c => c
      | .noContent s => s))
  | .cacts as' => .jactList (as'.map (fun a =>
      (a.tool.getD a.asStr, a.toolInput.getD "", a.log.getD "")))
  | .csteps ss => .jstepList (ss.map (fun s => s.observation.getD s.asStr))

/-- A string read of a dictionary key (`chunk.get(key)` compared with a
string). -/
def dGetStr (d : List (String × CVal)) (k : String) : Option String :=
  match List.lookup k d with
  | some (.cs s) => some s
  | _ => none

/-- The quick acknowledgement frame yielded before any upstream event. -/
def quickAckFrame : Frame :=
  .obj [("quick_response", .jb true),
    ("output", .js ("I understand your request. I" ++ String.singleton apos ++
      "m working on a detailed response for you."))]

/-- The terminal frame of the `finally` block. -/
def endFrame : Frame := .obj [("type", .js "end")]

/-- The error frame of the `except` block, carrying the failure text. -/
def exceptionFrame (e : String) : Frame :=
  .obj [("error", .js ("Error in completion event generator: " ++ e))]

/-- The per-chunk translation of `_completion_event_generator`: passthrough
for a pre-framed string, an error payload, a context payload, the generic
structured-chunk projection (`type`, `prompt`, `output`, `messages`,
`actions`, `steps`, `context`, in source order, each only when present), or
the stringified fallback for any other object. -/
def translateChunk : Chunk → Frame
  | .str s =>
    if hasPre "data: ".data s.data then .raw s
    else .obj [("output", .js s)]
  | .dict d =>
    if (List.lookup "error" d).isSome then
      .obj [("error", (List.lookup "error" d).elim .jnull cvalToJOut)]
    else if dGetStr d "type" = some "context" then
      .obj [("type", .js "context"),
        ("content", (dGetStr d "content").elim .jnull .js)]
    else
      .obj ((["type", "prompt", "output", "messages", "actions", "steps",
        "context"].filterMap (fun k =>
          (List.lookup k d).map (fun v => (k, cvalToJOut v)))))
  | .other s => .obj [("output", .js s)]

/-- The `for chunk in completion_stream` loop body together with the
`except` clause: events are consumed one at a time in upstream order; the
first raise of the feed aborts the loop and downgrades to one error frame. -/
def consumeLoop : List (Chunk ⊕ String) → List Frame
  | [] => []
  | .inl c :: rest => translateChunk c :: consumeLoop rest
  | .inr e :: _ => [exceptionFrame e]

/-- `_completion_event_generator` over an upstream feed (each element a
yielded chunk or the exception iteration raises at that point): the quick
acknowledgement precedes any consumption, and the `finally` block appends
the terminal end frame in every run. -/
def completionEventGenerator (events : List (Chunk ⊕ String)) : List Frame :=
  quickAckFrame :: (consumeLoop events ++ [endFrame])

/-- Brace freedom of every name and literal of a pair list. -/
def pairsBraceFree (ps : List (List Char × List Char)) : Prop :=
  ∀ p ∈ ps, braceFree p.1 ∧ braceFree p.2

instance (ps : List (List Char × List Char)) : Decidable (pairsBraceFree ps) := by
  unfold pairsBraceFree; infer_instance

theorem grabName_of_braceFree (n rest : List Char) (hb : braceFree n) :
    grabName (n ++ '}' :: '}' :: rest) = some (n, rest) := by
  induction n with
  | nil => simp [grabName]
  | cons c n' ih =>
    have hc := hb c (List.mem_cons_self _ _)
    have ih' := ih (fun d hd => hb d (List.mem_cons_of_mem _ hd))
    simp only [List.cons_append]
    rw [grabName.eq_def]
    simp [hc.2, ih']

theorem parseT_lit_cons (c : Char) (cs : List Char) (hc : c ≠ '{') :
    parseT (c :: cs) = (c :: (parseT cs).1, (parseT cs).2) := by
  rw [parseT.eq_def]
  simp [hc]

theorem parseT_open (rest : List Char) {n r : List Char}
    (h : grabName rest = some (n, r)) :
    parseT ('{' :: '{' :: rest) = ([], (n, (parseT r).1) :: (parseT r).2) := by
  rw [parseT.eq_def]
  simp only [List.head?_cons, List.tail_cons, and_self, if_true, reduceIte]
  split
  · rename_i nr heq
    rw [h] at heq
    cases heq
    rfl
  · rename_i heq
    rw [h] at heq
    cases heq

theorem parseT_lit_append (lit cs : List Char) (hb : braceFree lit) :
    parseT (lit ++ cs) = (lit ++ (parseT cs).1, (parseT cs).2) := by
  induction lit with
  | nil => simp
  | cons c l' ih =>
    have hc := hb c (List.mem_cons_self _ _)
    have ih' := ih (fun d hd => hb d (List.mem_cons_of_mem _ hd))
    simp only [List.cons_append]
    rw [parseT_lit_cons _ _ hc.1, ih']

/-- The regex scan inverts template rendering: on a template written as
brace-free literals around brace-free placeholder names, the parse returns
exactly those literals and names. -/
theorem parseT_render : ∀ (ps : List (List Char × List Char)) (lit0 : List Char),
    braceFree lit0 → pairsBraceFree ps → parseT (render lit0 ps) = (lit0, ps) := by
  intro ps
  induction ps with
  | nil =>
    intro lit0 h0 _
    unfold render renderPairs
    rw [parseT_lit_append _ _ h0]
    simp [parseT]
  | cons p ps' ih =>
    intro lit0 h0 hp
    obtain ⟨n, l⟩ := p
    have hn : braceFree n := (hp (n, l) (by simp)).1
    have hl : braceFree l := (hp (n, l) (by simp)).2
    have hp' : pairsBraceFree ps' := fun q hq => hp q (by simp [hq])
    have hY := ih l hl hp'
    unfold render at hY ⊢
    unfold renderPairs
    rw [parseT_lit_append _ _ h0,
      parseT_open _ (grabName_of_braceFree n (l ++ renderPairs ps') hn), hY]
    simp

/-- The source in-fill loop computes exactly the specified interleaving of
literal segments and positional substitutions. -/
theorem fillRow_eq_specInterleave (row : Row) (lit0 : List Char) :
    ∀ (pairs : List (List Char × List Char)),
    fillRow row lit0 pairs = specInterleave (lit0 :: pairs.map Prod.snd)
      (pairs.map (fun p => cellData (getVal row (colName p.1)))) := by
  intro pairs
  induction pairs generalizing lit0 with
  | nil => simp [fillRow, fillPairs, specInterleave]
  | cons p ps ih =>
    obtain ⟨n, l⟩ := p
    have := ih l
    simp only [fillRow, fillPairs, List.map_cons, specInterleave] at this ⊢
    rw [← List.append_assoc, ← this]
    simp [fillRow]

/-- C8: for every template with at least one placeholder (rendered from
brace-free literals and names) and every row whose placeholder fields are
all non-null, `get_completed_prompts` produces a prompt that reproduces
every literal segment of the template verbatim, with each field value
inserted at the exact original position of its placeholder. -/
theorem prompt_fill_round_trip (lit0 : List Char)
    (pairs : List (List Char × List Char)) (row : Row)
    (h0 : braceFree lit0) (hp : pairsBraceFree pairs) (hne : pairs ≠ [])
    (hrow : ∀ p ∈ pairs, (getVal row (colName p.1)).isSome) :
    getCompletedPrompts (render lit0 pairs) [row] =
      .ok ([setCol row mdbPromptCol (some (.vStr (String.mk
          (specInterleave (lit0 :: pairs.map Prod.snd)
            (pairs.map (fun p => cellData (getVal row (colName p.1))))))))],
        [specInterleave (lit0 :: pairs.map Prod.snd)
          (pairs.map (fun p => cellData (getVal row (colName p.1))))],
        []) := by
  unfold getCompletedPrompts
  rw [parseT_render pairs lit0 h0 hp]
  simp only [hne, if_false, reduceIte]
  rw [← fillRow_eq_specInterleave]
  cases pairs with
  | nil => exact absurd rfl hne
  | cons q qs =>
    have h1 := hrow q (by simp)
    have h2 : (getVal row (colName q.1)).isNone = false := by
      cases hv : getVal row (colName q.1) with
      | none => rw [hv] at h1; simp at h1
      | some v => simp
    simp [List.range, List.range.loop, h2]
theorem lookup_append_of_none (k : String) (l1 l2 : Row)
    (h : List.lookup k l1 = none) :
    List.lookup k (l1 ++ l2) = List.lookup k l2 := by
  induction l1 with
  | nil => rfl
  | cons p r ih =>
    rw [List.lookup] at h
    cases hkp : (k == p.1) with
    | true => rw [hkp] at h; cases h
    | false =>
      rw [hkp] at h
      rw [List.cons_append, List.lookup, hkp, ih h]

theorem lookup_map_overwrite (k : String) (v : Option CellVal) :
    ∀ (row : Row), row.any (fun p => p.1 == k) = true →
    List.lookup k (row.map (fun p => if p.1 == k then (k, v) else p)) = some v := by
  intro row
  induction row with
  | nil => intro h; cases h
  | cons p r ih =>
    intro h
    cases hpk : (p.1 == k) with
    | true =>
      simp only [List.map_cons, hpk, reduceIte]
      simp [List.lookup]
    | false =>
      have hr : r.any (fun p => p.1 == k) = true := by
        rw [List.any_cons, hpk] at h
        simpa using h
      have hkp : (k == p.1) = false := by
        rw [beq_eq_false_iff_ne] at hpk ⊢
        exact fun he => hpk he.symm
      simp only [List.map_cons, hpk, Bool.false_eq_true, reduceIte]
      simp only [List.lookup, hkp]
      exact ih hr

theorem lookup_setCol (row : Row) (k : String) (v : Option CellVal) :
    List.lookup k (setCol row k v) = some v := by
  unfold setCol
  cases har : row.any (fun p => p.1 == k) with
  | true =>
    simp only [if_pos har]
    exact lookup_map_overwrite k v row har
  | false =>
    simp only [Bool.false_eq_true, if_false, reduceIte]
    have hnone : List.lookup k row = none := by
      induction row with
      | nil => rfl
      | cons p r ih =>
        rw [List.any_cons, Bool.or_eq_false_iff] at har
        have hkp : (k == p.1) = false := by
          rw [beq_eq_false_iff_ne] at har ⊢
          exact fun he => har.1 he.symm
        simp only [List.lookup, hkp]
        exact ih har.2
    rw [lookup_append_of_none k row _ hnone]
    simp [List.lookup]
theorem getCompletedPrompts_render_eq (lit0 : List Char)
    (pairs : List (List Char × List Char)) (df : List Row)
    (h0 : braceFree lit0) (hp : pairsBraceFree pairs) (hne : pairs ≠ []) :
    getCompletedPrompts (render lit0 pairs) df =
      .ok (df.map (fun row => setCol row mdbPromptCol
          (some (.vStr (String.mk (fillRow row lit0 pairs))))),
        df.map (fun row => fillRow row lit0 pairs),
        (List.range df.length).filter (fun i => (pairs.map (fun p => colName p.1)).all
          (fun c => (getVal (df.getD i []) c).isNone))) := by
  unfold getCompletedPrompts
  rw [parseT_render pairs lit0 h0 hp]
  simp only [hne, if_false, reduceIte]

/-- C9: `get_completed_prompts` marks a row as empty exactly when all of
the placeholder fields of that row are simultaneously null (logical AND
across the template fields); for every non-empty row each null field
substitutes as the empty string and each non-null field is coerced to its
string form inside the filled prompt. -/
theorem empty_row_all_null_flagging (lit0 : List Char)
    (pairs : List (List Char × List Char)) (df : List Row)
    (h0 : braceFree lit0) (hp : pairsBraceFree pairs) (hne : pairs ≠ []) :
    ∃ (newDf : List Row) (prompts : List (List Char)) (ids : List Nat),
      getCompletedPrompts (render lit0 pairs) df = .ok (newDf, prompts, ids) ∧
      (∀ (i : Nat), i ∈ ids ↔ ∃ (row : Row), df[i]? = some row ∧
        ∀ p ∈ pairs, getVal row (colName p.1) = none) ∧
      (∀ (i : Nat) (row : Row), df[i]? = some row →
        ¬ (∀ p ∈ pairs, getVal row (colName p.1) = none) →
        prompts[i]? = some (specInterleave (lit0 :: pairs.map Prod.snd)
          (pairs.map (fun p => cellData (getVal row (colName p.1)))))) := by
  refine ⟨df.map (fun row => setCol row mdbPromptCol
      (some (.vStr (String.mk (fillRow row lit0 pairs))))),
    df.map (fun row => fillRow row lit0 pairs),
    (List.range df.length).filter (fun i => (pairs.map (fun p => colName p.1)).all
      (fun c => (getVal (df.getD i []) c).isNone)),
    getCompletedPrompts_render_eq lit0 pairs df h0 hp hne, ?_, ?_⟩
  · intro i
    constructor
    · intro hi
      rw [List.mem_filter, List.mem_range] at hi
      obtain ⟨hilt, hall⟩ := hi
      refine ⟨df.getD i [], ?_, ?_⟩
      · rw [List.getD_eq_getElem?_getD, List.getElem?_eq_getElem hilt]
        rfl
      · intro p hpmem
        rw [List.all_eq_true] at hall
        have := hall (colName p.1) (List.mem_map_of_mem _ hpmem)
        simpa [Option.isNone_iff_eq_none] using this
    · rintro ⟨row, hrow, hnull⟩
      rw [List.mem_filter, List.mem_range]
      have hilt : i < df.length := by
        by_contra hge
        rw [List.getElem?_eq_none (by omega)] at hrow
        cases hrow
      refine ⟨hilt, ?_⟩
      rw [List.all_eq_true]
      intro c hc
      rw [List.mem_map] at hc
      obtain ⟨p, hpmem, hpc⟩ := hc
      have hd : df.getD i [] = row := by
        rw [List.getD_eq_getElem?_getD, hrow]
        rfl
      rw [hd, ← hpc]
      simp [Option.isNone_iff_eq_none, hnull p hpmem]
  · intro i row hrow _
    rw [List.getElem?_map (fun row => fillRow row lit0 pairs) df i, hrow]
    simp [fillRow_eq_specInterleave]

/-- C10: `get_completed_prompts` updates the callers record batch: every
returned row carries the `__mdb_prompt` column holding the filled prompt
text, so for a non-empty batch that did not have the column the batch
state the caller sees afterwards differs from its input state. -/
theorem get_completed_prompts_mutates_df (t : List Char) (df newDf : List Row)
    (prompts : List (List Char)) (ids : List Nat)
    (h : getCompletedPrompts t df = .ok (newDf, prompts, ids))
    (hcol : ∀ row ∈ df, List.lookup mdbPromptCol row = none)
    (hne : df ≠ []) :
    newDf ≠ df ∧ ∀ (i : Nat) (row : Row), df[i]? = some row →
      newDf[i]? = some (setCol row mdbPromptCol
        (some (.vStr (String.mk (prompts.getD i []))))) ∧
      List.lookup mdbPromptCol (newDf.getD i []) =
        some (some (.vStr (String.mk (prompts.getD i [])))) := by
  unfold getCompletedPrompts at h
  by_cases hpe : (parseT t).2 = []
  · rw [if_pos hpe] at h
    cases h
  · rw [if_neg hpe] at h
    rw [Except.ok.injEq, Prod.mk.injEq, Prod.mk.injEq] at h
    obtain ⟨hdf, hpr, _⟩ := h
    constructor
    · intro heq
      cases df with
      | nil => exact hne rfl
      | cons r rest =>
        rw [← hdf] at heq
        have hhead : setCol r mdbPromptCol
            (some (.vStr (String.mk (fillRow r (parseT t).1 (parseT t).2)))) = r := by
          have := congrArg (fun l => l[0]?) heq
          simpa using this
        have h1 := lookup_setCol r mdbPromptCol
          (some (.vStr (String.mk (fillRow r (parseT t).1 (parseT t).2))))
        rw [hhead] at h1
        rw [hcol r (by simp)] at h1
        cases h1
    · intro i row hrow
      have hn : newDf[i]? = some (setCol row mdbPromptCol
          (some (.vStr (String.mk (fillRow row (parseT t).1 (parseT t).2))))) := by
        rw [← hdf, List.getElem?_map _ df i, hrow]
        rfl
      have hpi : prompts.getD i [] = fillRow row (parseT t).1 (parseT t).2 := by
        rw [← hpr, List.getD_eq_getElem?_getD, List.getElem?_map _ df i, hrow]
        rfl
      rw [hpi, hn]
      refine ⟨rfl, ?_⟩
      have : newDf.getD i [] = setCol row mdbPromptCol
          (some (.vStr (String.mk (fillRow row (parseT t).1 (parseT t).2)))) := by
        rw [List.getD_eq_getElem?_getD, hn]
        rfl
      rw [this, lookup_setCol]

/-- C8 witness data: a concrete template and a fully specified row. -/
def c8lit : List Char := "Hello ".data

/-- C8 witness data: one placeholder (named `name`) and its trailing literal. -/
def c8pairs : List (List Char × List Char) := [("name".data, "!".data)]

/-- C8 witness data: one row with the placeholder field filled. -/
def c8row : Row := [("name", some (.vStr "Bob"))]

/-- Witness for C8 at a concrete template and row. -/
theorem prompt_fill_round_trip_witness :
    getCompletedPrompts (render c8lit c8pairs) [c8row] =
      .ok ([setCol c8row mdbPromptCol (some (.vStr (String.mk
          (specInterleave (c8lit :: c8pairs.map Prod.snd)
            (c8pairs.map (fun p => cellData (getVal c8row (colName p.1))))))))],
        [specInterleave (c8lit :: c8pairs.map Prod.snd)
          (c8pairs.map (fun p => cellData (getVal c8row (colName p.1))))],
        []) :=
  prompt_fill_round_trip c8lit c8pairs c8row (by decide) (by decide) (by decide)
    (by decide)

/-- C9 witness data: one filled row and one all-null row. -/
def c9df : List Row := [[("name", some (.vStr "Ann"))], [("name", (none : Option CellVal))]]

/-- Witness for C9 at a concrete template and two-row batch. -/
theorem empty_row_all_null_flagging_witness :
    ∃ (newDf : List Row) (prompts : List (List Char)) (ids : List Nat),
      getCompletedPrompts (render c8lit c8pairs) c9df = .ok (newDf, prompts, ids) ∧
      (∀ (i : Nat), i ∈ ids ↔ ∃ (row : Row), c9df[i]? = some row ∧
        ∀ p ∈ c8pairs, getVal row (colName p.1) = none) ∧
      (∀ (i : Nat) (row : Row), c9df[i]? = some row →
        ¬ (∀ p ∈ c8pairs, getVal row (colName p.1) = none) →
        prompts[i]? = some (specInterleave (c8lit :: c8pairs.map Prod.snd)
          (c8pairs.map (fun p => cellData (getVal row (colName p.1)))))) :=
  empty_row_all_null_flagging c8lit c8pairs c9df (by decide) (by decide) (by decide)

/-- C10 witness data: the updated frame the call returns. -/
def c10newDf : List Row :=
  [[("name", some (.vStr "Bob")), ("__mdb_prompt", some (.vStr "Hello Bob!"))]]

/-- C10 witness data: the prompt list of the call. -/
def c10prompts : List (List Char) := ["Hello Bob!".data]

/-- Witness for C10 at a concrete template and one-row batch. -/
theorem get_completed_prompts_mutates_df_witness :
    c10newDf ≠ [c8row] ∧ ∀ (i : Nat) (row : Row), [c8row][i]? = some row →
      c10newDf[i]? = some (setCol row mdbPromptCol
        (some (.vStr (String.mk (c10prompts.getD i []))))) ∧
      List.lookup mdbPromptCol (c10newDf.getD i []) =
        some (some (.vStr (String.mk (c10prompts.getD i [])))) :=
  get_completed_prompts_mutates_df (render c8lit c8pairs) [c8row] c10newDf
    c10prompts []
    (by
      rw [getCompletedPrompts_render_eq c8lit c8pairs [c8row] (by decide)
        (by decide) (by decide)]
      decide)
    (by decide) (by decide)

theorem consumeLoop_map_inl (chunks : List Chunk) :
    consumeLoop (chunks.map Sum.inl) = chunks.map translateChunk := by
  induction chunks with
  | nil => rfl
  | cons c cs ih => simp [consumeLoop, ih]

theorem consumeLoop_raise (e : String) (rest : List (Chunk ⊕ String)) :
    ∀ (pre : List Chunk),
    consumeLoop (pre.map Sum.inl ++ Sum.inr e :: rest) =
      pre.map translateChunk ++ [exceptionFrame e] := by
  intro pre
  induction pre with
  | nil => rfl
  | cons c cs ih => simp [consumeLoop, ih]

/-- C4: for every upstream event feed, the stream translator emits the
quick acknowledgement frame first (before consuming any upstream event),
emits the translated frames in upstream order, emits one error frame when
iterating the feed raises, and emits the terminal end frame last in every
run; in particular the feed of one context chunk followed by a raised
`boom` yields quick-ack, context frame, error frame, end frame in order. -/
theorem stream_translator_protocol :
    (∀ events : List (Chunk ⊕ String),
      (completionEventGenerator events).head? = some quickAckFrame) ∧
    (∀ events : List (Chunk ⊕ String),
      (completionEventGenerator events).getLast? = some endFrame) ∧
    (∀ chunks : List Chunk,
      completionEventGenerator (chunks.map Sum.inl) =
        quickAckFrame :: (chunks.map translateChunk ++ [endFrame])) ∧
    (∀ (pre : List Chunk) (e : String) (rest : List (Chunk ⊕ String)),
      completionEventGenerator (pre.map Sum.inl ++ Sum.inr e :: rest) =
        quickAckFrame :: (pre.map translateChunk ++ [exceptionFrame e, endFrame])) ∧
    completionEventGenerator
        [Sum.inl (Chunk.dict [("type", .cs "context"), ("content", .cs "X")]),
          Sum.inr "boom"] =
      [quickAckFrame,
        .obj [("type", .js "context"), ("content", .js "X")],
        exceptionFrame "boom",
        endFrame] := by
  refine ⟨fun events => rfl, fun events => ?_, fun chunks => ?_, fun pre e rest => ?_, ?_⟩
  · rw [show completionEventGenerator events =
      (quickAckFrame :: consumeLoop events) ++ [endFrame] from rfl,
      List.getLast?_concat]
  · rw [completionEventGenerator, consumeLoop_map_inl]
  · rw [completionEventGenerator, consumeLoop_raise]
    simp
  · decide

/-- Propagation of a task failure through the collection loop: if every
completion arrives within the deadline and the first failing task is
reached, its exception aborts the whole collection. -/
theorem collectLoop_error (results : List (Except String String))
    (times : List Nat) (dl : Nat) (i : Nat) (post : List Nat) (e : String) :
    ∀ (pre : List Nat) (acc : List String),
    (∀ j ∈ pre ++ i :: post, times.getD j 0 ≤ dl) →
    results.getD i (.ok "") = .error e →
    (∀ j ∈ pre, ∃ s, results.getD j (.ok "") = .ok s) →
    collectLoop results times dl (pre ++ i :: post) acc = .error e := by
  intro pre
  induction pre with
  | nil =>
    intro acc htime herr _
    have ht : ¬ (dl < times.getD i 0) := not_lt.mpr (htime i (by simp))
    simp only [List.nil_append, collectLoop, ht, if_false, reduceIte, herr]
  | cons j pre' ih =>
    intro acc htime herr hpre
    obtain ⟨s, hs⟩ := hpre j (by simp)
    have ht : ¬ (dl < times.getD j 0) := not_lt.mpr (htime j (by simp))
    simp only [List.cons_append, collectLoop, ht, if_false, reduceIte, hs]
    exact ih (acc ++ [s]) (fun k hk => htime k (by simp at hk ⊢; tauto)) herr
      (fun k hk => hpre k (by simp [hk]))

/-- C5: a task failure whose text is the langchain parsing error around
`hello` is salvaged to the answer `hello` (a one-shot fallback inside the
wrapper, no retry); an error not starting with the parsing marker is
re-raised by the wrapper, and such a failure aborts the whole collection
for the batch once its task is reached. -/
theorem parsing_error_salvage :
    (∀ (cap : Capability) (p : List Char), p ≠ [] →
      cap.invoke p = .error "Could not parse LLM output: `hello`" →
      invokeAgentExecutorWithPrompt cap p = .ok "hello") ∧
    (∀ (cap : Capability) (p : List Char) (e : String), p ≠ [] →
      hasPre parseMarker.data e.data = false →
      cap.invoke p = .error e →
      invokeAgentExecutorWithPrompt cap p = .error e) ∧
    (∀ (results : List (Except String String)) (times : List Nat) (dl : Nat)
      (pre : List Nat) (i : Nat) (post : List Nat) (e : String),
      (∀ j ∈ pre ++ i :: post, times.getD j 0 ≤ dl) →
      results.getD i (.ok "") = .error e →
      (∀ j ∈ pre, ∃ s, results.getD j (.ok "") = .ok s) →
      collectLoop results times dl (pre ++ i :: post) [] = .error e) := by
  refine ⟨?_, ?_, ?_⟩
  · intro cap p hne h
    unfold invokeAgentExecutorWithPrompt
    rw [if_neg hne, h]
    have hm : hasPre parseMarker.data
        ("Could not parse LLM output: `hello`" : String).data = true := by decide
    simp only [hm, Bool.true_eq_false, not_false_eq_true, not_true_eq_false,
      if_false, reduceIte]
    decide
  · intro cap p e hne hpre h
    unfold invokeAgentExecutorWithPrompt
    rw [if_neg hne, h]
    simp [hpre]
  · intro results times dl pre i post e htime herr hpre
    exact collectLoop_error results times dl i post e pre [] htime herr hpre

/-- Witness for C5: a concrete capability that raises the salvageable
parsing error, and a concrete batch whose second task fails fatally. -/
theorem parsing_error_salvage_witness :
    invokeAgentExecutorWithPrompt
        ⟨fun _ => .error "Could not parse LLM output: `hello`", fun _ => ""⟩
        ['p'] = .ok "hello" ∧
    collectLoop [.ok "fine", .error "boom"] [0, 0] 5 [0, 1] [] = .error "boom" := by
  constructor
  · exact parsing_error_salvage.1 _ ['p'] (by decide) rfl
  · refine parsing_error_salvage.2.2 [.ok "fine", .error "boom"] [0, 0] 5 [0] 1 [] "boom"
      (by decide) (by decide) ?_
    intro j hj
    simp only [List.mem_singleton] at hj
    subst hj
    exact ⟨"fine", rfl⟩

theorem getD_map_ok (outs : List String) (i : Nat) :
    (outs.map Except.ok : List (Except String String)).getD i (.ok "") =
      Except.ok (outs.getD i "") := by
  rw [List.getD_eq_getElem?_getD, List.getD_eq_getElem?_getD,
    List.getElem?_map Except.ok outs i]
  cases outs[i]? <;> rfl

/-- The collection loop under a deadline violation: it returns the results
of the completion-order prefix that finished in time, followed by exactly
the one timeout sentinel. -/
theorem collectLoop_timeout (outs : List String) (times : List Nat) (dl : Nat) :
    ∀ (order : List Nat) (acc : List String),
    (∃ i ∈ order, dl < times.getD i 0) →
    collectLoop (outs.map .ok) times dl order acc =
      .ok (acc ++ ((order.takeWhile (fun i => times.getD i 0 ≤ dl)).map
        (fun i => outs.getD i "") ++ [timeoutMessage])) := by
  intro order
  induction order with
  | nil =>
    intro acc h
    simp at h
  | cons i rest ih =>
    intro acc hlate
    by_cases hi : dl < times.getD i 0
    · have hpred : (decide (times.getD i 0 ≤ dl)) = false :=
        decide_eq_false (not_le.mpr hi)
      simp only [collectLoop, hi, if_true, reduceIte, List.takeWhile_cons, hpred,
        Bool.false_eq_true, if_false, List.map_nil, List.nil_append]
    · have hpred : (decide (times.getD i 0 ≤ dl)) = true :=
        decide_eq_true (not_lt.mp hi)
      have hlate' : ∃ k ∈ rest, dl < times.getD k 0 := by
        obtain ⟨k, hk, hklate⟩ := hlate
        rcases List.mem_cons.mp hk with hki | hkr
        · subst hki; exact absurd hklate hi
        · exact ⟨k, hkr, hklate⟩
      have hstep : collectLoop (outs.map .ok) times dl (i :: rest) acc =
          collectLoop (outs.map .ok) times dl rest (acc ++ [outs.getD i ""]) := by
        simp only [collectLoop, hi, if_false, reduceIte]
        rw [getD_map_ok]
      rw [hstep, ih (acc ++ [outs.getD i ""]) hlate']
      simp only [List.takeWhile_cons, hpred, if_true, reduceIte, List.map_cons]
      simp

/-- C6: when the deadline elapses before all dispatched tasks finish, the
collection stops waiting, appends exactly one timeout sentinel (not one
per unfinished task), returns the results that had completed, and returns
normally rather than raising the timeout. -/
theorem dispatcher_timeout_one_sentinel (outs : List String) (times : List Nat)
    (dl : Nat) (order : List Nat)
    (hok : ∀ s ∈ outs, s ≠ timeoutMessage)
    (hlate : ∃ i ∈ order, dl < times.getD i 0) :
    collectLoop (outs.map .ok) times dl order [] =
      .ok ((order.takeWhile (fun i => times.getD i 0 ≤ dl)).map
          (fun i => outs.getD i "") ++ [timeoutMessage]) ∧
      ((order.takeWhile (fun i => times.getD i 0 ≤ dl)).map
          (fun i => outs.getD i "") ++ [timeoutMessage]).count timeoutMessage = 1 := by
  constructor
  · simpa using collectLoop_timeout outs times dl order [] hlate
  · rw [List.count_append]
    have h1 : ((order.takeWhile (fun i => times.getD i 0 ≤ dl)).map
        (fun i => outs.getD i "")).count timeoutMessage = 0 := by
      rw [List.count_eq_zero]
      intro hmem
      rw [List.mem_map] at hmem
      obtain ⟨i, -, hi⟩ := hmem
      rw [List.getD_eq_getElem?_getD] at hi
      cases hgd : outs[i]? with
      | none =>
        rw [hgd] at hi
        exact absurd hi.symm (by decide)
      | some s =>
        rw [hgd] at hi
        exact hok s (List.getElem?_mem hgd) hi
    rw [h1]
    simp

/-- Witness for C6: five prompts that all take 10 time units against a
deadline of 2 yield exactly the one sentinel result. -/
theorem dispatcher_timeout_one_sentinel_witness :
    collectLoop ((["a", "b", "c", "d", "e"] : List String).map .ok)
        [10, 10, 10, 10, 10] 2 [0, 1, 2, 3, 4] [] =
      .ok ((([0, 1, 2, 3, 4] : List Nat).takeWhile
          (fun i => ([10, 10, 10, 10, 10] : List Nat).getD i 0 ≤ 2)).map
          (fun i => (["a", "b", "c", "d", "e"] : List String).getD i "") ++
        [timeoutMessage]) ∧
      ((([0, 1, 2, 3, 4] : List Nat).takeWhile
          (fun i => ([10, 10, 10, 10, 10] : List Nat).getD i 0 ≤ 2)).map
          (fun i => (["a", "b", "c", "d", "e"] : List String).getD i "") ++
        [timeoutMessage]).count timeoutMessage = 1 :=
  dispatcher_timeout_one_sentinel ["a", "b", "c", "d", "e"] [10, 10, 10, 10, 10]
    2 [0, 1, 2, 3, 4] (by decide) (by decide)

/-- The valid example of the specification:
system(a), user(b), assistant(c). -/
def chatExampleValid : List ChatMsg :=
  [[("role", .mstr "system"), ("content", .mstr "a")],
    [("role", .mstr "user"), ("content", .mstr "b")],
    [("role", .mstr "assistant"), ("content", .mstr "c")]]

/-- The invalid example of the specification:
user(b), assistant(c), assistant(d). -/
def chatExampleInvalid : List ChatMsg :=
  [[("role", .mstr "user"), ("content", .mstr "b")],
    [("role", .mstr "assistant"), ("content", .mstr "c")],
    [("role", .mstr "assistant"), ("content", .mstr "d")]]

/-- C7: the validator walks the default transition table
start to (system or user), system to user, user to assistant, assistant to
user; the valid specification example passes, and the invalid one fails at
the 1-based message index 3 reporting the attempted
(assistant, assistant) pair. -/
theorem chat_validator_default_fsm :
    (defaultTransitions "system" "user" "assistant" none = ["system", "user"] ∧
      defaultTransitions "system" "user" "assistant" (some "system") = ["user"] ∧
      defaultTransitions "system" "user" "assistant" (some "user") = ["assistant"] ∧
      defaultTransitions "system" "user" "assistant" (some "assistant") = ["user"]) ∧
    ftChatFormatValidationD chatExampleValid = .ok () ∧
    ftChatFormatValidationD chatExampleInvalid =
      .error (.invalidTransition 3 (some "assistant") "assistant") := by
  decide

/-- The finite state machine walk reports the first violation: a
transition failure at 1-based index `j` means every earlier message
passed (the walk of the prefix up to the failure succeeds) and the failing
role is not permitted from the reported state. -/
theorem fsmWalk_first_violation (validRoles : List String)
    (trans : Option String → List String) :
    ∀ (msgs : List (MVal × MVal)) (s : Option String) (i j : Nat)
      (s' : Option String) (r : String),
    fsmWalk validRoles trans s i msgs = .error (.invalidTransition j s' r) →
    i ≤ j ∧ fsmWalk validRoles trans s i (msgs.take (j - i)) = .ok () ∧
      ¬ (trans s').contains r := by
  intro msgs
  induction msgs with
  | nil =>
    intro s i j s' r h
    simp [fsmWalk] at h
  | cons m rest ih =>
    intro s i j s' r h
    obtain ⟨role, content⟩ := m
    cases role with
    | mnum n => simp [fsmWalk] at h
    | mstr rr =>
      simp only [fsmWalk] at h
      by_cases hrole : validRoles.contains rr = true
      · rw [if_neg (not_not_intro hrole)] at h
        cases content with
        | mnum n => simp at h
        | mstr c =>
          by_cases htr : (trans s).contains rr = true
          · rw [if_neg (not_not_intro htr)] at h
            obtain ⟨hij, hpre, hnc⟩ := ih (some rr) (i + 1) j s' r h
            refine ⟨by omega, ?_, hnc⟩
            have hj : j - i = (j - (i + 1)) + 1 := by omega
            rw [hj, List.take_succ_cons]
            simp only [fsmWalk]
            rw [if_neg (not_not_intro hrole), if_neg (not_not_intro htr)]
            exact hpre
          · rw [if_pos htr] at h
            simp only [Except.error.injEq, ChatErr.invalidTransition.injEq] at h
            obtain ⟨hji, hss, hrr⟩ := h
            subst hji
            subst hss
            subst hrr
            refine ⟨le_refl i, ?_, htr⟩
            simp [fsmWalk]
      · rw [if_pos hrole] at h
        simp at h

/-- The message batch of the specification example: chat_id [2,2,1,1],
message_id [1,2,1,2], with conversational user/assistant roles. -/
def chatBatchExample : List ChatRow :=
  [⟨2, 1, "user", "c"⟩, ⟨2, 2, "assistant", "d"⟩,
    ⟨1, 1, "user", "a"⟩, ⟨1, 2, "assistant", "b"⟩]

/-- The single chat unit the aggregation actually produces for that batch:
all four messages in (chat_id, message_id) order. -/
def chatUnitExample : List ChatMsg :=
  [[("role", .mstr "user"), ("content", .mstr "a")],
    [("role", .mstr "assistant"), ("content", .mstr "b")],
    [("role", .mstr "user"), ("content", .mstr "c")],
    [("role", .mstr "assistant"), ("content", .mstr "d")]]

/-- Counterexample for C3: on the example batch the tabular aggregation
returns one merged chat unit, not two, because units are split only at
`system` roles and never at `chat_id` boundaries. -/
theorem chat_aggregator_merges_two_chats :
    ftChatFormatter true true chatBatchExample = .ok [chatUnitExample] ∧
    ¬ ∃ out, ftChatFormatter true true chatBatchExample = .ok out ∧
      out.length = 2 := by
  have he : ftChatFormatter true true chatBatchExample = .ok [chatUnitExample] := by
    decide
  refine ⟨he, ?_⟩
  rintro ⟨out, h1, h2⟩
  rw [he, Except.ok.injEq] at h1
  subst h1
  simp at h2

/-- C3 (amended): for every arrival order of the example batch, the
aggregation sorts by (chat_id, message_id) and returns exactly one chat
unit holding all four messages in that order, independent of the original
row order. -/
theorem chat_aggregator_sorted_single_unit (l : List ChatRow)
    (h : l.Perm chatBatchExample) :
    ftChatFormatter true true l = .ok [chatUnitExample] := by
  have hm : l ∈ chatBatchExample.permutations' := List.mem_permutations'.mpr h
  exact (by decide : ∀ m ∈ chatBatchExample.permutations',
    ftChatFormatter true true m = .ok [chatUnitExample]) l hm

/-- Witness for the amended C3 at one concrete shuffled arrival order. -/
theorem chat_aggregator_sorted_single_unit_witness :
    ftChatFormatter true true
        [⟨1, 2, "assistant", "b"⟩, ⟨2, 1, "user", "c"⟩,
          ⟨1, 1, "user", "a"⟩, ⟨2, 2, "assistant", "d"⟩] =
      .ok [chatUnitExample] :=
  chat_aggregator_sorted_single_unit
    [⟨1, 2, "assistant", "b"⟩, ⟨2, 1, "user", "c"⟩,
      ⟨1, 1, "user", "a"⟩, ⟨2, 2, "assistant", "d"⟩]
    (List.mem_permutations'.mp (by decide))

theorem parseT_simple_a : parseT ['{', '{', 'a', '}', '}'] = ([], [(['a'], [])]) := by
  rw [parseT_open _ (show grabName ['a', '}', '}'] = some (['a'], []) by decide)]
  simp [parseT]

/-- The two-row batch of the C1 failing input: row 0 has its only
placeholder field null (and no user column), row 1 has it filled. -/
def dfExample : List Row :=
  [[("a", (none : Option CellVal))], [("a", some (.vStr "x"))]]

/-- A capability that always answers `y`. -/
def capConst : Capability := ⟨fun _ => .ok (some "y"), fun _ => ""⟩

/-- C1 (evaluation at the failing input): on a two-row batch whose first
row is empty, `run_agent` reinserts nulls only at
`sorted(empty_prompt_ids)[:-1]`, dropping the last empty row id, so the
result has one entry instead of two and row 0 never receives its null
entry. -/
theorem run_agent_drops_last_empty_row :
    runAgent ['{', '{', 'a', '}', '}'] "question" dfExample capConst [0] [0] 10 =
      .ok [some "y"] ∧
    ∀ out,
      runAgent ['{', '{', 'a', '}', '}'] "question" dfExample capConst [0] [0] 10 =
        .ok out → out.length = 1 := by
  have he : runAgent ['{', '{', 'a', '}', '}'] "question" dfExample capConst
      [0] [0] 10 = .ok [some "y"] := by
    unfold runAgent
    rw [parseT_simple_a]
    decide
  refine ⟨he, ?_⟩
  intro out h
  have h2 := he.symm.trans h
  rw [Except.ok.injEq] at h2
  rw [← h2]
  rfl

/-- C2 (evaluation at the failing schedule): with two tasks whose second
completes first, the collection loop appends results in completion order,
yielding the swapped list rather than input row order. -/
theorem collect_in_completion_order :
    collectLoop [.ok "a", .ok "b"] [0, 0] 100 [1, 0] [] = .ok ["b", "a"] ∧
    (["b", "a"] : List String) ≠ ["a", "b"] := by
  decide
